import Mathlib

/-
Verification development for the Windows network-interface registry
(`src/windows/network.rs`): the `NetworksInner` registry, its `refresh`
algorithm and the `NetworkDataInner` counter accessors, shallowly embedded
in Lean 4.

Machine integers (`u64`, `u16`, `u8`) are modelled as `Nat`; the only
operations the source performs on them are `saturating_add` /
`saturating_sub`, modelled explicitly below.  The platform FFI
(`GetIfTable2` / `FreeMibTable`) is modelled by passing the query result as
an `Option (List MibIfRow2)` parameter and instrumenting the number of
release calls.  The `HashMap<String, NetworkData>` registry is modelled as
an association list with unique keys; interface names (the result of
`String::from_utf16`) are modelled as lists of Unicode scalar values.
-/

set_option maxHeartbeats 1000000
set_option maxRecDepth 100000

namespace SysinfoNetwork

/-- `u64::MAX`. -/
def u64Max : Nat := 2 ^ 64 - 1

/-- Rust `u64::saturating_add` on values below `2^64`. -/
def satAdd (a b : Nat) : Nat := min (a + b) u64Max

/-- Rust `u64::saturating_sub`; on `Nat`, truncated subtraction is exactly
saturating subtraction. -/
def satSub (a b : Nat) : Nat := a - b

/-- The fields of the Windows `GUID` used by `InterfaceGuid`
(`data1 : u32`, `data2 data3 : u16`, `data4 : [u8; 8]`). -/
structure Guid where
  data1 : Nat
  data2 : Nat
  data3 : Nat
  data4 : List Nat
deriving DecidableEq, Inhabited, Repr

/-- `MacAddr(pub [u8; 6])` from the surrounding crate. -/
structure MacAddr where
  octets : List Nat
deriving DecidableEq, Inhabited, Repr

/-- `MacAddr::UNSPECIFIED`: all six octets zero. -/
def MacAddr.UNSPECIFIED : MacAddr := ⟨[0, 0, 0, 0, 0, 0]⟩

/-- `IpNetwork` from the surrounding crate: an (address, network-length)
pair.  Its internals are irrelevant here; the address is modelled as a
`Nat`. -/
structure IpNetwork where
  addr : Nat
  netLen : Nat
deriving DecidableEq, Inhabited, Repr

/-- The fields of the Windows `MIB_IF_ROW2` that `refresh` reads.
`Alias` is the fixed-size null-terminated UTF-16 buffer, modelled as the
list of its `u16` code units. -/
structure MibIfRow2 where
  TransmitLinkSpeed : Nat
  ReceiveLinkSpeed : Nat
  MediaConnectState : Nat
  PhysicalAddressLength : Nat
  InterfaceGuid : Guid
  Alias : List Nat
  Mtu : Nat
  OutOctets : Nat
  InOctets : Nat
  InUcastPkts : Nat
  InNUcastPkts : Nat
  OutUcastPkts : Nat
  OutNUcastPkts : Nat
  InErrors : Nat
  OutErrors : Nat
deriving DecidableEq, Inhabited, Repr

/-- `MediaConnectStateDisconnected` from `windows::Win32::NetworkManagement::Ndis`
(`NET_IF_MEDIA_CONNECT_STATE`: unknown = 0, connected = 1, disconnected = 2). -/
def mediaConnectStateDisconnected : Nat := 2

/-- The record stored per interface: `NetworkDataInner`. -/
structure NetworkDataInner where
  current_out : Nat
  old_out : Nat
  current_in : Nat
  old_in : Nat
  packets_in : Nat
  old_packets_in : Nat
  packets_out : Nat
  old_packets_out : Nat
  errors_in : Nat
  old_errors_in : Nat
  errors_out : Nat
  old_errors_out : Nat
  updated : Bool
  mac_addr : MacAddr
  ip_networks : List IpNetwork
  mtu : Nat
deriving DecidableEq, Inhabited, Repr

namespace NetworkDataInner

/-- `received`: `self.current_in.saturating_sub(self.old_in)`. -/
def received (s : NetworkDataInner) : Nat := satSub s.current_in s.old_in

/-- `total_received`: `self.current_in`. -/
def total_received (s : NetworkDataInner) : Nat := s.current_in

/-- `transmitted`: `self.current_out.saturating_sub(self.old_out)`. -/
def transmitted (s : NetworkDataInner) : Nat := satSub s.current_out s.old_out

/-- `total_transmitted`: `self.current_out`. -/
def total_transmitted (s : NetworkDataInner) : Nat := s.current_out

/-- `packets_received`: `self.packets_in.saturating_sub(self.old_packets_in)`. -/
def packets_received (s : NetworkDataInner) : Nat := satSub s.packets_in s.old_packets_in

/-- `total_packets_received`: `self.packets_in`. -/
def total_packets_received (s : NetworkDataInner) : Nat := s.packets_in

/-- `packets_transmitted`: `self.packets_out.saturating_sub(self.old_packets_out)`. -/
def packets_transmitted (s : NetworkDataInner) : Nat := satSub s.packets_out s.old_packets_out

/-- `total_packets_transmitted`: `self.packets_out`. -/
def total_packets_transmitted (s : NetworkDataInner) : Nat := s.packets_out

/-- `errors_on_received`: `self.errors_in.saturating_sub(self.old_errors_in)`. -/
def errors_on_received (s : NetworkDataInner) : Nat := satSub s.errors_in s.old_errors_in

/-- `total_errors_on_received`: `self.errors_in`. -/
def total_errors_on_received (s : NetworkDataInner) : Nat := s.errors_in

/-- `errors_on_transmitted`: `self.errors_out.saturating_sub(self.old_errors_out)`. -/
def errors_on_transmitted (s : NetworkDataInner) : Nat := satSub s.errors_out s.old_errors_out

/-- `total_errors_on_transmitted`: `self.errors_out`. -/
def total_errors_on_transmitted (s : NetworkDataInner) : Nat := s.errors_out

/-- `mac_address`. -/
def mac_address (s : NetworkDataInner) : MacAddr := s.mac_addr

/-- `mtu` accessor. -/
def mtuVal (s : NetworkDataInner) : Nat := s.mtu

end NetworkDataInner

/-- Interface names: the Unicode scalar values produced by
`String::from_utf16`. -/
abbrev IfaceName := List Nat

/-- Group identifiers: the ten-component id built from the interface GUID. -/
abbrev GroupId := List Nat

/-- First-match lookup in an association list, the model of
`HashMap::get` (keys are unique in every reachable registry). -/
def mlookup {β : Type} : List (List Nat × β) → List Nat → Option β
  | [], _ => none
  | (k, v) :: rest, n => if k = n then some v else mlookup rest n

/-- Replace the value stored at a key (no-op when the key is absent): the
model of mutating through `hash_map::Entry::Occupied`. -/
def mupdate {β : Type} : List (List Nat × β) → List Nat → β → List (List Nat × β)
  | [], _, _ => []
  | (k, v) :: rest, n, d =>
    if k = n then (k, d) :: rest else (k, v) :: mupdate rest n d

/-- The keys of an association list. -/
def mkeys {β : Type} (r : List (List Nat × β)) : List (List Nat) :=
  r.map Prod.fst

/-- The registry mapping: `HashMap<String, NetworkData>` (the `NetworkData`
wrapper only holds the inner record, so it is elided). -/
abbrev Registry := List (IfaceName × NetworkDataInner)

/-- The group-occurrence counter `groups : HashMap<Vec<u16>, i32>`. -/
abbrev GMap := List (GroupId × Nat)

/-- The group identifier computed at lines 60–71: `data2`, `data3` and the
eight bytes of `data4`, widened to `u16`. -/
def entryGroupId (e : MibIfRow2) : GroupId :=
  [e.InterfaceGuid.data2, e.InterfaceGuid.data3,
   e.InterfaceGuid.data4.getD 0 0, e.InterfaceGuid.data4.getD 1 0,
   e.InterfaceGuid.data4.getD 2 0, e.InterfaceGuid.data4.getD 3 0,
   e.InterfaceGuid.data4.getD 4 0, e.InterfaceGuid.data4.getD 5 0,
   e.InterfaceGuid.data4.getD 6 0, e.InterfaceGuid.data4.getD 7 0]

/-- The candidate filter at lines 54–59: an entry is kept unless both link
speeds are zero, or it is disconnected, or its physical address length is
zero (the source `continue`s on the disjunction; `survives` is its
negation). -/
def survives (e : MibIfRow2) : Bool :=
  !((e.TransmitLinkSpeed == 0 && e.ReceiveLinkSpeed == 0)
    || e.MediaConnectState == mediaConnectStateDisconnected
    || e.PhysicalAddressLength == 0)

/-- `groups.entry(id).or_insert(0); *entry += 1`. -/
def gbump : GMap → GroupId → GMap
  | [], id => [(id, 1)]
  | (k, v) :: rest, id =>
    if k = id then (k, v + 1) :: rest else (k, v) :: gbump rest id

/-- `*groups.get(&id).unwrap_or(&0)`. -/
def glook (g : GMap) (id : GroupId) : Nat := (mlookup g id).getD 0

/-- The first pass (lines 52–78): walk the table rows with their indices,
skip filtered entries, bump the group counter, and push `(i, id)` onto
`indexes` exactly when the bumped count does not exceed one. -/
def classifyLoop : Nat → List MibIfRow2 → GMap → List (Nat × GroupId) → GMap × List (Nat × GroupId)
  | _, [], g, ix => (g, ix)
  | i, e :: rest, g, ix =>
    if survives e then
      let id := entryGroupId e
      let g2 := gbump g id
      if glook g2 id > 1 then classifyLoop (i + 1) rest g2 ix
      else classifyLoop (i + 1) rest g2 (ix ++ [(i, id)])
    else classifyLoop (i + 1) rest g ix

/-- The scan of the fixed-size alias buffer up to the first null
terminator (lines 84–90): `&ptr.Alias[..pos]`. -/
def aliasUntilNul (al : List Nat) : List Nat :=
  al.takeWhile (fun x => x != 0)

/-- `String::from_utf16`: decode UTF-16 code units to Unicode scalar
values, failing on any unpaired surrogate. -/
def decodeUtf16 : List Nat → Option (List Nat)
  | [] => some []
  | u :: rest =>
    if 0xD800 ≤ u ∧ u ≤ 0xDBFF then
      match rest with
      | [] => none
      | v :: rest2 =>
        if 0xDC00 ≤ v ∧ v ≤ 0xDFFF then
          (decodeUtf16 rest2).map
            (fun l => (0x10000 + (u - 0xD800) * 0x400 + (v - 0xDC00)) :: l)
        else none
    else if 0xDC00 ≤ u ∧ u ≤ 0xDFFF then none
    else (decodeUtf16 rest).map (fun l => u :: l)

/-- Lines 84–94: the decoded interface name of a row, `none` on decode
failure. -/
def decodeName (e : MibIfRow2) : Option IfaceName :=
  decodeUtf16 (aliasUntilNul e.Alias)

/-- The occupied-entry update (lines 98–121): shift each counter
`current → old` and install the newly observed value (the `old_and_new!`
macro), set `mtu` when it differs, mark `updated`; `mac_addr` and
`ip_networks` are not touched. -/
def updateOccupied (e : MibIfRow2) (mtu : Nat) (d : NetworkDataInner) : NetworkDataInner :=
  { d with
    old_out := d.current_out
    current_out := e.OutOctets
    old_in := d.current_in
    current_in := e.InOctets
    old_packets_in := d.packets_in
    packets_in := satAdd e.InUcastPkts e.InNUcastPkts
    old_packets_out := d.packets_out
    packets_out := satAdd e.OutUcastPkts e.OutNUcastPkts
    old_errors_in := d.errors_in
    errors_in := e.InErrors
    old_errors_out := d.errors_out
    errors_out := e.OutErrors
    mtu := if d.mtu ≠ mtu then mtu else d.mtu
    updated := true }

/-- The vacant-entry insertion (lines 122–146): a fresh record seeded with
`current = old` for every counter, the unspecified MAC, no IP networks. -/
def newRecord (e : MibIfRow2) (mtu : Nat) : NetworkDataInner :=
  let packets_in := satAdd e.InUcastPkts e.InNUcastPkts
  let packets_out := satAdd e.OutUcastPkts e.OutNUcastPkts
  { current_out := e.OutOctets
    old_out := e.OutOctets
    current_in := e.InOctets
    old_in := e.InOctets
    packets_in := packets_in
    old_packets_in := packets_in
    packets_out := packets_out
    old_packets_out := packets_out
    errors_in := e.InErrors
    old_errors_in := e.InErrors
    errors_out := e.OutErrors
    old_errors_out := e.OutErrors
    updated := true
    mac_addr := MacAddr.UNSPECIFIED
    ip_networks := []
    mtu := mtu }

/-- The second pass (lines 79–148): for each pushed `(i, id)` re-check the
final group count, re-read row `i` of the (immutable) table, decode its
alias, and upsert through the entry API. -/
def upsertLoop (t : List MibIfRow2) (groups : GMap) :
    List (Nat × GroupId) → Registry → Registry
  | [], r => r
  | (i, id) :: rest, r =>
    if glook groups id > 1 then upsertLoop t groups rest r
    else
      let e := t.getD i default
      match decodeName e with
      | none => upsertLoop t groups rest r
      | some name =>
        let mtu := e.Mtu
        match mlookup r name with
        | some d => upsertLoop t groups rest (mupdate r name (updateOccupied e mtu d))
        | none => upsertLoop t groups rest (r ++ [(name, newRecord e mtu)])

/-- The reset phase (lines 41–43): `data.inner.updated = false` on every
record. -/
def resetUpdated (r : Registry) : Registry :=
  r.map (fun p => (p.1, { p.2 with updated := false }))

/-- The eviction phase (lines 151–160): `retain` keeps exactly the records
whose `updated` flag is set, resetting the flag on each kept record. -/
def retainUpdated (r : Registry) : Registry :=
  (r.filter (fun p => p.2.updated)).map (fun p => (p.1, { p.2 with updated := false }))

/-- Modelled from the spec: `refresh_networks_addresses` (the
address-refresh collaborator, whose code is outside this file's source) is
"responsible solely for populating each record's `ip_networks`"; it is
modelled as an arbitrary per-record choice of IP networks applied to the
full mapping. -/
def refreshNetworksAddresses (f : IfaceName → NetworkDataInner → List IpNetwork)
    (r : Registry) : Registry :=
  r.map (fun p => (p.1, { p.2 with ip_networks := f p.1 p.2 }))

/-- `NetworksInner`. -/
structure NetworksInner where
  interfaces : Registry
deriving DecidableEq, Inhabited, Repr

/-- `NetworksInner::new`. -/
def NetworksInner.new : NetworksInner := ⟨[]⟩

/-- `NetworksInner::list`. -/
def NetworksInner.list (s : NetworksInner) : Registry := s.interfaces

/-- The outcome of one `refresh` call, instrumented with the number of
`FreeMibTable` calls and of `refresh_networks_addresses` calls made on the
executed control-flow path. -/
structure RefreshResult where
  state : NetworksInner
  frees : Nat
  addrCalls : Nat
deriving DecidableEq, Repr

/-- `NetworksInner::refresh` (lines 33–163).  The `GetIfTable2` result is
the `query` parameter (`none` models the error return at lines 37–39); the
address-refresh collaborator is the parameter `addrRe`.  On failure the
function returns at once; on success it resets the `updated` flags, runs
the two classification/upsert passes, frees the table (counted in
`frees`), optionally evicts non-updated records, and hands the mapping to
the address-refresh collaborator (counted in `addrCalls`). -/
def NetworksInner.refresh (s : NetworksInner) (query : Option (List MibIfRow2))
    (removeNotListedInterfaces : Bool)
    (addrRe : IfaceName → NetworkDataInner → List IpNetwork) : RefreshResult :=
  match query with
  | none => ⟨s, 0, 0⟩
  | some table =>
    let r0 := resetUpdated s.interfaces
    let gi := classifyLoop 0 table [] []
    let r1 := upsertLoop table gi.1 gi.2 r0
    let r2 := if removeNotListedInterfaces then retainUpdated r1 else r1
    let r3 := refreshNetworksAddresses addrRe r2
    ⟨⟨r3⟩, 1, 1⟩

/-! ## Analysis of the two-pass grouping

`groupCount t id` counts the occurrences of group identifier `id` among
the survivors of the candidate filter; `attempted t` is the list of table
rows that reach the decode/upsert stage of the second pass (in table
order).  The lemmas below prove that `attempted t` is exactly the list of
surviving rows whose group identifier is unique among survivors. -/

/-- Occurrences of a group identifier among the filter survivors of a
table. -/
def groupCount : List MibIfRow2 → GroupId → Nat
  | [], _ => 0
  | e :: rest, id =>
    if survives e then
      (if entryGroupId e = id then 1 else 0) + groupCount rest id
    else groupCount rest id

/-- The group-map accumulation of the first pass, in isolation. -/
def gFold : GMap → List MibIfRow2 → GMap
  | g, [] => g
  | g, e :: rest =>
    if survives e then gFold (gbump g (entryGroupId e)) rest else gFold g rest

/-- Bump a count function at one identifier. -/
def bumpFn (c : GroupId → Nat) (id : GroupId) : GroupId → Nat :=
  fun x => if x = id then c id + 1 else c x

/-- The `indexes` list produced by the first pass, described with an
abstract count function in place of the group map. -/
def firstPassSpec : (GroupId → Nat) → Nat → List MibIfRow2 → List (Nat × GroupId)
  | _, _, [] => []
  | c, i, e :: rest =>
    if survives e then
      let id := entryGroupId e
      if c id + 1 > 1 then firstPassSpec (bumpFn c id) (i + 1) rest
      else (i, id) :: firstPassSpec (bumpFn c id) (i + 1) rest
    else firstPassSpec c (i + 1) rest

/-- The table rows that pass the second-pass group re-check (and so reach
the decode/upsert stage), given a count function. -/
def attemptedList (t : List MibIfRow2) (c : GroupId → Nat) :
    List (Nat × GroupId) → List MibIfRow2
  | [] => []
  | (i, id) :: rest =>
    if c id > 1 then attemptedList t c rest
    else t.getD i default :: attemptedList t c rest

/-- The rows of `t` that reach the decode/upsert stage of `refresh`. -/
def attempted (t : List MibIfRow2) : List MibIfRow2 :=
  attemptedList t (glook (classifyLoop 0 t [] []).1) (classifyLoop 0 t [] []).2

theorem mlookup_nil {β : Type} (n : List Nat) : mlookup ([] : List (List Nat × β)) n = none := rfl

theorem mlookup_cons {β : Type} (k n : List Nat) (v : β) (r : List (List Nat × β)) :
    mlookup ((k, v) :: r) n = if k = n then some v else mlookup r n := rfl

theorem glook_gbump_self (g : GMap) (id : GroupId) :
    glook (gbump g id) id = glook g id + 1 := by
  induction g with
  | nil => simp [gbump, glook, mlookup]
  | cons p rest ih =>
    obtain ⟨k, v⟩ := p
    by_cases hk : k = id
    · subst hk; simp [gbump, glook, mlookup_cons]
    · simp [gbump, glook, mlookup_cons, hk] at ih ⊢
      exact ih

theorem glook_gbump_ne (g : GMap) (id x : GroupId) (h : x ≠ id) :
    glook (gbump g id) x = glook g x := by
  induction g with
  | nil =>
    have h2 : id ≠ x := fun he => h he.symm
    simp [gbump, glook, mlookup_cons, mlookup_nil, h2]
  | cons p rest ih =>
    obtain ⟨k, v⟩ := p
    by_cases hk : k = id
    · subst hk
      have h2 : k ≠ x := fun he => h he.symm
      simp [gbump, glook, mlookup_cons, h2]
    · by_cases hx : k = x
      · simp [gbump, glook, mlookup_cons, hk, hx, h]
      · simp only [gbump, if_neg hk, glook, mlookup_cons, if_neg hx]
        exact ih

theorem glook_gbump_fn (g : GMap) (id : GroupId) :
    glook (gbump g id) = bumpFn (glook g) id := by
  funext x
  by_cases h : x = id
  · subst h; simp [bumpFn, glook_gbump_self]
  · simp [bumpFn, h, glook_gbump_ne g id x h]

theorem classifyLoop_eq (l : List MibIfRow2) :
    ∀ (i : Nat) (g : GMap) (ix : List (Nat × GroupId)),
      classifyLoop i l g ix = (gFold g l, ix ++ firstPassSpec (glook g) i l) := by
  induction l with
  | nil => intro i g ix; simp [classifyLoop, gFold, firstPassSpec]
  | cons e rest ih =>
    intro i g ix
    cases hs : survives e with
    | true =>
      by_cases hc : glook (gbump g (entryGroupId e)) (entryGroupId e) > 1
      · have hc2 : glook g (entryGroupId e) + 1 > 1 := by
          rw [glook_gbump_self] at hc; exact hc
        simp [classifyLoop, firstPassSpec, hs, hc, hc2, gFold, ih, glook_gbump_fn, bumpFn]
      · have hc2 : ¬(glook g (entryGroupId e) + 1 > 1) := by
          rw [glook_gbump_self] at hc; exact hc
        simp [classifyLoop, firstPassSpec, hs, hc, hc2, gFold, ih, glook_gbump_fn, bumpFn]
    | false =>
      simp [classifyLoop, firstPassSpec, hs, gFold, ih]

theorem glook_gFold (l : List MibIfRow2) :
    ∀ (g : GMap) (id : GroupId), glook (gFold g l) id = glook g id + groupCount l id := by
  induction l with
  | nil => intro g id; simp [gFold, groupCount]
  | cons e rest ih =>
    intro g id
    cases hs : survives e with
    | true =>
      simp only [gFold, groupCount, hs, if_true]
      rw [ih]
      by_cases he : entryGroupId e = id
      · subst he
        rw [glook_gbump_self]
        simp
        omega
      · rw [glook_gbump_ne g (entryGroupId e) id (fun h => he h.symm)]
        simp [he]
    | false =>
      simp [gFold, groupCount, hs, ih]

theorem mlookup_mem {β : Type} (g : List (List Nat × β)) (x : List Nat) (c : β)
    (h : mlookup g x = some c) : (x, c) ∈ g := by
  induction g with
  | nil => simp [mlookup] at h
  | cons p rest ih =>
    obtain ⟨k, v⟩ := p
    rw [mlookup_cons] at h
    by_cases hk : k = x
    · rw [if_pos hk] at h
      subst hk
      obtain rfl : v = c := by injection h
      exact List.mem_cons_self _ _
    · rw [if_neg hk] at h
      exact List.mem_cons_of_mem _ (ih h)

theorem gbump_vals (g : GMap) (id : GroupId)
    (h : ∀ p ∈ g, 1 ≤ p.2) : ∀ p ∈ gbump g id, 1 ≤ p.2 := by
  induction g with
  | nil =>
    intro p hp
    simp [gbump] at hp
    subst hp
    exact Nat.le_refl 1
  | cons q rest ih =>
    obtain ⟨k, v⟩ := q
    intro p hp
    by_cases hk : k = id
    · rw [gbump, if_pos hk] at hp
      rcases List.mem_cons.mp hp with h1 | h1
      · subst h1
        exact Nat.le_add_left 1 v
      · exact h p (List.mem_cons_of_mem _ h1)
    · rw [gbump, if_neg hk] at hp
      rcases List.mem_cons.mp hp with h1 | h1
      · subst h1; exact h (k, v) (List.mem_cons_self _ _)
      · exact ih (fun q hq => h q (List.mem_cons_of_mem _ hq)) p h1

theorem gFold_vals (l : List MibIfRow2) :
    ∀ g : GMap, (∀ p ∈ g, 1 ≤ p.2) → ∀ p ∈ gFold g l, 1 ≤ p.2 := by
  induction l with
  | nil => intro g h p hp; exact h p hp
  | cons e rest ih =>
    intro g h p hp
    by_cases hs : survives e
    · rw [gFold, if_pos hs] at hp
      exact ih _ (gbump_vals g (entryGroupId e) h) p hp
    · rw [gFold, if_neg hs] at hp
      exact ih g h p hp

theorem drop_cons_getD {α : Type} [Inhabited α] (t : List α) :
    ∀ (i : Nat) (e : α) (rest : List α), t.drop i = e :: rest →
      t.getD i default = e ∧ t.drop (i + 1) = rest := by
  induction t with
  | nil =>
    intro i e rest h
    rw [List.drop_nil] at h
    exact absurd h (List.cons_ne_nil e rest).symm
  | cons a t2 ih =>
    intro i e rest h
    cases i with
    | zero =>
      rw [List.drop_zero] at h
      injection h with h1 h2
      subst h1
      subst h2
      exact ⟨rfl, rfl⟩
    | succ i =>
      rw [List.drop_succ_cons] at h
      obtain ⟨h1, h2⟩ := ih i e rest h
      exact ⟨h1, h2⟩

theorem attemptedList_firstPassSpec (t : List MibIfRow2) (tc : GroupId → Nat) :
    ∀ (l : List MibIfRow2) (i0 : Nat) (c : GroupId → Nat),
      t.drop i0 = l →
      (∀ id, tc id = c id + groupCount l id) →
      attemptedList t tc (firstPassSpec c i0 l)
        = (l.filter survives).filter (fun e => tc (entryGroupId e) == 1) := by
  intro l
  induction l with
  | nil =>
    intro i0 c _ _
    simp [firstPassSpec, attemptedList]
  | cons e rest ih =>
    intro i0 c hdrop htc
    obtain ⟨hget, hdropr⟩ := drop_cons_getD t i0 e rest hdrop
    cases hs : survives e with
    | false =>
      have htc2 : ∀ id, tc id = c id + groupCount rest id := by
        intro id
        have h0 := htc id
        simp only [groupCount, hs, Bool.false_eq_true, if_false] at h0
        exact h0
      have hih := ih (i0 + 1) c hdropr htc2
      have hL : firstPassSpec c i0 (e :: rest) = firstPassSpec c (i0 + 1) rest := by
        simp [firstPassSpec, hs]
      rw [hL, hih]
      simp [List.filter_cons, hs]
    | true =>
      have hgc : groupCount (e :: rest) (entryGroupId e)
          = 1 + groupCount rest (entryGroupId e) := by
        simp [groupCount, hs]
      have htcE := htc (entryGroupId e)
      rw [hgc] at htcE
      have htc2 : ∀ id, tc id = bumpFn c (entryGroupId e) id + groupCount rest id := by
        intro id
        by_cases hid : id = entryGroupId e
        · rw [hid]
          simp [bumpFn]
          omega
        · have h0 := htc id
          have hne : ¬(entryGroupId e = id) := fun h1 => hid h1.symm
          simp only [groupCount, hs, if_true, hne, if_false, Nat.zero_add] at h0
          simp only [bumpFn, if_neg hid]
          exact h0
      have hih := ih (i0 + 1) (bumpFn c (entryGroupId e)) hdropr htc2
      by_cases hc : c (entryGroupId e) + 1 > 1
      · have htce : (tc (entryGroupId e) == 1) = false := by
          have h1 : tc (entryGroupId e) ≠ 1 := by omega
          simpa using h1
        have hL : firstPassSpec c i0 (e :: rest)
            = firstPassSpec (bumpFn c (entryGroupId e)) (i0 + 1) rest := by
          simp [firstPassSpec, hs, hc]
        rw [hL, hih]
        simp [List.filter_cons, hs, htce]
      · by_cases hrest : groupCount rest (entryGroupId e) = 0
        · have htce : tc (entryGroupId e) = 1 := by omega
          have hL : firstPassSpec c i0 (e :: rest)
              = (i0, entryGroupId e) :: firstPassSpec (bumpFn c (entryGroupId e)) (i0 + 1) rest := by
            simp [firstPassSpec, hs, hc]
          rw [hL]
          have hA : attemptedList t tc
              ((i0, entryGroupId e) :: firstPassSpec (bumpFn c (entryGroupId e)) (i0 + 1) rest)
              = e :: attemptedList t tc (firstPassSpec (bumpFn c (entryGroupId e)) (i0 + 1) rest) := by
            simp only [attemptedList]
            rw [if_neg (show ¬tc (entryGroupId e) > 1 by omega), hget]
          rw [hA, hih]
          simp [List.filter_cons, hs, htce]
        · have htgt : tc (entryGroupId e) > 1 := by omega
          have htce : (tc (entryGroupId e) == 1) = false := by
            have h1 : tc (entryGroupId e) ≠ 1 := by omega
            simpa using h1
          have hL : firstPassSpec c i0 (e :: rest)
              = (i0, entryGroupId e) :: firstPassSpec (bumpFn c (entryGroupId e)) (i0 + 1) rest := by
            simp [firstPassSpec, hs, hc]
          rw [hL]
          have hA : attemptedList t tc
              ((i0, entryGroupId e) :: firstPassSpec (bumpFn c (entryGroupId e)) (i0 + 1) rest)
              = attemptedList t tc (firstPassSpec (bumpFn c (entryGroupId e)) (i0 + 1) rest) := by
            simp [attemptedList, htgt]
          rw [hA, hih]
          simp [List.filter_cons, hs, htce]

/-- The central structural fact about the two-pass grouping: the rows that
reach the decode/upsert stage are exactly the filter survivors whose group
identifier occurs exactly once among survivors, in table order. -/
theorem attempted_eq (t : List MibIfRow2) :
    attempted t
      = (t.filter survives).filter (fun e => groupCount t (entryGroupId e) == 1) := by
  have h1 : classifyLoop 0 t [] [] = (gFold [] t, [] ++ firstPassSpec (glook []) 0 t) :=
    classifyLoop_eq t 0 [] []
  have hg : ∀ id, glook (gFold [] t) id = groupCount t id := by
    intro id
    rw [glook_gFold]
    simp [glook, mlookup_nil]
  have h2 := attemptedList_firstPassSpec t (glook (gFold [] t)) t 0 (glook [])
    (by simp)
    (fun id => by rw [hg id]; simp [glook, mlookup_nil])
  unfold attempted
  rw [h1]
  simp only [List.nil_append]
  rw [h2]
  apply List.filter_congr
  intro x _
  rw [hg (entryGroupId x)]

theorem groupCount_append (l1 l2 : List MibIfRow2) (id : GroupId) :
    groupCount (l1 ++ l2) id = groupCount l1 id + groupCount l2 id := by
  induction l1 with
  | nil => simp [groupCount]
  | cons e rest ih =>
    cases hs : survives e with
    | true => simp [groupCount, hs, ih]; omega
    | false => simp [groupCount, hs, ih]

theorem groupCount_pos_of_mem (l : List MibIfRow2) (e : MibIfRow2)
    (hm : e ∈ l) (hs : survives e = true) :
    1 ≤ groupCount l (entryGroupId e) := by
  induction l with
  | nil => simp at hm
  | cons a rest ih =>
    rcases List.mem_cons.mp hm with h1 | h1
    · subst h1
      simp [groupCount, hs]
    · have h2 := ih h1
      cases ha : survives a with
      | true =>
        by_cases he : entryGroupId a = entryGroupId e
        · simp [groupCount, ha, he]
        · simp [groupCount, ha, he]
          omega
      | false => simpa [groupCount, ha] using h2

theorem getD_take {α : Type} (t : List α) :
    ∀ (i j : Nat) (d : α), i < j → (t.take j).getD i d = t.getD i d := by
  induction t with
  | nil => intro i j d _; simp
  | cons a t2 ih =>
    intro i j d hij
    cases j with
    | zero => omega
    | succ j =>
      cases i with
      | zero => simp
      | succ i => simpa using ih i j d (by omega)

theorem getD_mem {α : Type} (t : List α) :
    ∀ (i : Nat) (d : α), i < t.length → t.getD i d ∈ t := by
  induction t with
  | nil => intro i d h; simp at h
  | cons a t2 ih =>
    intro i d h
    cases i with
    | zero => simp
    | succ i =>
      simp only [List.getD_cons_succ]
      exact List.mem_cons_of_mem a (ih i d (by simpa using h))

theorem drop_eq_getD_cons {α : Type} (t : List α) :
    ∀ (j : Nat) (d : α), j < t.length → t.drop j = t.getD j d :: t.drop (j + 1) := by
  induction t with
  | nil => intro j d h; simp at h
  | cons a t2 ih =>
    intro j d h
    cases j with
    | zero => simp
    | succ j => simpa using ih j d (by simpa using h)

/-- Two distinct surviving positions with the same group identifier give a
group count of at least two. -/
theorem groupCount_two (t : List MibIfRow2) (i j : Nat)
    (hij : i < j) (hj : j < t.length)
    (hsi : survives (t.getD i default) = true)
    (hsj : survives (t.getD j default) = true)
    (hid : entryGroupId (t.getD i default) = entryGroupId (t.getD j default)) :
    2 ≤ groupCount t (entryGroupId (t.getD i default)) := by
  have hi : i < t.length := hij.trans hj
  have h1 : 1 ≤ groupCount (t.take j) (entryGroupId (t.getD i default)) := by
    have hmem : t.getD i default ∈ t.take j := by
      have hlen : i < (t.take j).length := by
        simp only [List.length_take]
        omega
      have := getD_mem (t.take j) i default hlen
      rwa [getD_take t i j default hij] at this
    exact groupCount_pos_of_mem _ _ hmem hsi
  have h2 : 1 ≤ groupCount (t.drop j) (entryGroupId (t.getD i default)) := by
    have hmem : t.getD j default ∈ t.drop j := by
      rw [drop_eq_getD_cons t j default hj]
      exact List.mem_cons_self _ _
    rw [hid]
    exact groupCount_pos_of_mem _ _ hmem hsj
  have h3 := groupCount_append (t.take j) (t.drop j) (entryGroupId (t.getD i default))
  rw [List.take_append_drop] at h3
  omega

/-- C1: during refresh a group identifier is computed and counted for
every filter survivor and only for survivors (the final group map holds
exactly the positive survivor counts), the second pass admits to the
upsert stage exactly the survivors whose group identifier occurs once
among survivors, and two surviving candidates at distinct table positions
sharing a group identifier are both excluded from the upsert stage. -/
theorem C1_duplicate_group_suppression (t : List MibIfRow2) (i j : Nat)
    (hi : i < t.length) (hj : j < t.length) (hij : i ≠ j)
    (hsi : survives (t.getD i default) = true)
    (hsj : survives (t.getD j default) = true)
    (hid : entryGroupId (t.getD i default) = entryGroupId (t.getD j default)) :
    (∀ id c, mlookup (classifyLoop 0 t [] []).1 id = some c →
        c = groupCount t id ∧ 1 ≤ c)
    ∧ (∀ e ∈ t, survives e = true →
        mlookup (classifyLoop 0 t [] []).1 (entryGroupId e)
          = some (groupCount t (entryGroupId e)))
    ∧ attempted t
        = (t.filter survives).filter (fun e => groupCount t (entryGroupId e) == 1)
    ∧ t.getD i default ∉ attempted t
    ∧ t.getD j default ∉ attempted t := by
  have hcl : (classifyLoop 0 t [] []).1 = gFold [] t := by
    rw [classifyLoop_eq]
  have hg : ∀ id, glook (gFold [] t) id = groupCount t id := by
    intro id
    rw [glook_gFold]
    simp [glook, mlookup_nil]
  have h2 : 2 ≤ groupCount t (entryGroupId (t.getD i default)) := by
    rcases Nat.lt_or_ge i j with hlt | hge
    · exact groupCount_two t i j hlt hj hsi hsj hid
    · have hlt : j < i := by omega
      rw [hid]
      exact groupCount_two t j i hlt hi hsj hsi hid.symm
  have hnotm : ∀ e : MibIfRow2, 2 ≤ groupCount t (entryGroupId e) → e ∉ attempted t := by
    intro e h2e hmem
    rw [attempted_eq] at hmem
    have := (List.mem_filter.mp hmem).2
    have h1 : groupCount t (entryGroupId e) = 1 := by simpa using this
    omega
  refine ⟨?_, ?_, attempted_eq t, hnotm _ h2, hnotm _ (hid ▸ h2)⟩
  · intro id c hl
    rw [hcl] at hl
    have hgl : glook (gFold [] t) id = c := by simp [glook, hl]
    have hpos : 1 ≤ c := gFold_vals t [] (by simp) (id, c) (mlookup_mem _ _ _ hl)
    rw [hg] at hgl
    exact ⟨hgl.symm, hpos⟩
  · intro e hm hs
    have hpos := groupCount_pos_of_mem t e hm hs
    rw [hcl]
    cases hl : mlookup (gFold [] t) (entryGroupId e) with
    | none =>
      have : glook (gFold [] t) (entryGroupId e) = 0 := by simp [glook, hl]
      rw [hg] at this
      omega
    | some c =>
      have : glook (gFold [] t) (entryGroupId e) = c := by simp [glook, hl]
      rw [hg] at this
      rw [this]

/-! ## Analysis of the upsert pass

The second-pass loop is the left fold of a single-candidate upsert step
over the `attempted` rows; the lemmas below describe the effect of that
fold on each name. -/

/-- The decode-and-upsert body of the second pass for one row that passed
the group re-check (lines 84–147). -/
def upsertEntry (r : Registry) (e : MibIfRow2) : Registry :=
  match decodeName e with
  | none => r
  | some name =>
    match mlookup r name with
    | some d => mupdate r name (updateOccupied e e.Mtu d)
    | none => r ++ [(name, newRecord e e.Mtu)]

theorem upsertLoop_cons (t : List MibIfRow2) (groups : GMap) (i : Nat) (id : GroupId)
    (rest : List (Nat × GroupId)) (r : Registry) :
    upsertLoop t groups ((i, id) :: rest) r
      = if glook groups id > 1 then upsertLoop t groups rest r
        else upsertLoop t groups rest (upsertEntry r (t.getD i default)) := by
  by_cases hc : glook groups id > 1
  · simp only [upsertLoop, if_pos hc]
  · simp only [upsertLoop, upsertEntry, if_neg hc]
    split
    · rfl
    · split
      · rfl
      · rfl

theorem upsertLoop_eq_foldl (t : List MibIfRow2) (groups : GMap) :
    ∀ (ixs : List (Nat × GroupId)) (r : Registry),
      upsertLoop t groups ixs r
        = (attemptedList t (glook groups) ixs).foldl upsertEntry r := by
  intro ixs
  induction ixs with
  | nil => intro r; simp [upsertLoop, attemptedList]
  | cons p rest ih =>
    obtain ⟨i, id⟩ := p
    intro r
    rw [upsertLoop_cons]
    by_cases hc : glook groups id > 1
    · rw [if_pos hc]
      simp only [attemptedList, if_pos hc]
      exact ih r
    · rw [if_neg hc]
      simp only [attemptedList, if_neg hc, List.foldl_cons]
      exact ih _

theorem mlookup_append {β : Type} (r s : List (List Nat × β)) (n : List Nat) :
    mlookup (r ++ s) n
      = match mlookup r n with
        | some v => some v
        | none => mlookup s n := by
  induction r with
  | nil => simp [mlookup]
  | cons p rest ih =>
    obtain ⟨k, v⟩ := p
    by_cases hk : k = n <;> simp [mlookup_cons, hk, ih]

theorem mlookup_mupdate_self {β : Type} (r : List (List Nat × β)) (n : List Nat) (d v : β)
    (h : mlookup r n = some v) : mlookup (mupdate r n d) n = some d := by
  induction r with
  | nil => simp [mlookup] at h
  | cons p rest ih =>
    obtain ⟨k, w⟩ := p
    by_cases hk : k = n
    · simp [mupdate, mlookup_cons, hk]
    · rw [mlookup_cons, if_neg hk] at h
      simp [mupdate, mlookup_cons, hk, ih h]

theorem mlookup_mupdate_ne {β : Type} (r : List (List Nat × β)) (n m : List Nat) (d : β)
    (h : m ≠ n) : mlookup (mupdate r n d) m = mlookup r m := by
  induction r with
  | nil => simp [mupdate]
  | cons p rest ih =>
    obtain ⟨k, w⟩ := p
    by_cases hk : k = n
    · subst hk
      have h2 : ¬k = m := fun he => h (he.symm)
      simp [mupdate, mlookup_cons, h2]
    · by_cases hm : k = m
      · subst hm
        simp [mupdate, mlookup_cons, hk]
      · simp [mupdate, mlookup_cons, hk, hm, ih]

theorem mkeys_mupdate {β : Type} (r : List (List Nat × β)) (n : List Nat) (d : β) :
    mkeys (mupdate r n d) = mkeys r := by
  induction r with
  | nil => rfl
  | cons p rest ih =>
    obtain ⟨k, w⟩ := p
    by_cases hk : k = n
    · simp [mupdate, mkeys, hk]
    · simp only [mupdate, if_neg hk]
      simp only [mkeys, List.map_cons] at ih ⊢
      rw [ih]

theorem mlookup_none_iff {β : Type} (r : List (List Nat × β)) (n : List Nat) :
    mlookup r n = none ↔ n ∉ mkeys r := by
  induction r with
  | nil => simp [mlookup, mkeys]
  | cons p rest ih =>
    obtain ⟨k, v⟩ := p
    by_cases hk : k = n
    · subst hk
      simp [mlookup_cons, mkeys]
    · have hnk : n ≠ k := fun h => hk h.symm
      have hmk : mkeys ((k, v) :: rest) = k :: mkeys rest := rfl
      rw [mlookup_cons, if_neg hk, hmk, ih]
      simp [hnk]

theorem upsertEntry_lookup_ne (r : Registry) (e : MibIfRow2) (n : IfaceName)
    (h : decodeName e ≠ some n) : mlookup (upsertEntry r e) n = mlookup r n := by
  cases hd : decodeName e with
  | none => simp only [upsertEntry, hd]
  | some m =>
    have hmn : m ≠ n := fun he => h (by rw [hd, he])
    cases hl : mlookup r m with
    | some d =>
      simp only [upsertEntry, hd, hl]
      exact mlookup_mupdate_ne r m n _ (Ne.symm hmn)
    | none =>
      simp only [upsertEntry, hd, hl]
      rw [mlookup_append]
      cases hq : mlookup r n with
      | some v => rfl
      | none => simp [mlookup_cons, mlookup_nil, hmn]

theorem upsertEntry_lookup_occupied (r : Registry) (e : MibIfRow2) (n : IfaceName)
    (d : NetworkDataInner) (hd : decodeName e = some n) (hl : mlookup r n = some d) :
    mlookup (upsertEntry r e) n = some (updateOccupied e e.Mtu d) := by
  simp only [upsertEntry, hd, hl]
  exact mlookup_mupdate_self r n _ d hl

theorem upsertEntry_lookup_vacant (r : Registry) (e : MibIfRow2) (n : IfaceName)
    (hd : decodeName e = some n) (hl : mlookup r n = none) :
    mlookup (upsertEntry r e) n = some (newRecord e e.Mtu) := by
  simp only [upsertEntry, hd, hl]
  rw [mlookup_append, hl]
  simp [mlookup_cons]

theorem foldl_lookup_unmatched (L : List MibIfRow2) :
    ∀ (r : Registry) (n : IfaceName), (∀ x ∈ L, decodeName x ≠ some n) →
      mlookup (L.foldl upsertEntry r) n = mlookup r n := by
  induction L with
  | nil => intro r n _; rfl
  | cons x L ih =>
    intro r n h
    rw [List.foldl_cons]
    rw [ih _ n (fun y hy => h y (List.mem_cons_of_mem x hy))]
    exact upsertEntry_lookup_ne r x n (h x (List.mem_cons_self _ _))

theorem foldl_lookup_updated_stable (L : List MibIfRow2) :
    ∀ (r : Registry) (n : IfaceName),
      (∃ d, mlookup r n = some d ∧ d.updated = true) →
      ∃ d2, mlookup (L.foldl upsertEntry r) n = some d2 ∧ d2.updated = true := by
  induction L with
  | nil => intro r n h; exact h
  | cons x L ih =>
    intro r n h
    obtain ⟨d, hl, hu⟩ := h
    rw [List.foldl_cons]
    by_cases hdx : decodeName x = some n
    · exact ih _ n ⟨updateOccupied x x.Mtu d,
        upsertEntry_lookup_occupied r x n d hdx hl, rfl⟩
    · exact ih _ n ⟨d, by rw [upsertEntry_lookup_ne r x n hdx]; exact hl, hu⟩

theorem foldl_lookup_matched (L : List MibIfRow2) :
    ∀ (r : Registry) (n : IfaceName),
      (∃ x ∈ L, decodeName x = some n) →
      ∃ d2, mlookup (L.foldl upsertEntry r) n = some d2 ∧ d2.updated = true := by
  induction L with
  | nil => intro r n h; simp at h
  | cons x L ih =>
    intro r n h
    obtain ⟨y, hy, hdy⟩ := h
    rw [List.foldl_cons]
    rcases List.mem_cons.mp hy with h1 | h1
    · subst h1
      cases hl : mlookup r n with
      | some d =>
        exact foldl_lookup_updated_stable L _ n ⟨updateOccupied y y.Mtu d,
          upsertEntry_lookup_occupied r y n d hdy hl, rfl⟩
      | none =>
        exact foldl_lookup_updated_stable L _ n ⟨newRecord y y.Mtu,
          upsertEntry_lookup_vacant r y n hdy hl, rfl⟩
    · exact ih _ n ⟨y, h1, hdy⟩

theorem filter_decode_nil (L : List MibIfRow2) (n : IfaceName)
    (hf : L.filter (fun x => decodeName x == some n) = []) :
    ∀ x ∈ L, decodeName x ≠ some n := by
  intro x hx
  have := List.filter_eq_nil_iff.mp hf x hx
  simpa using this

theorem foldl_lookup_single_occupied (L : List MibIfRow2) :
    ∀ (r : Registry) (n : IfaceName) (e : MibIfRow2) (d : NetworkDataInner),
      L.filter (fun x => decodeName x == some n) = [e] →
      mlookup r n = some d →
      mlookup (L.foldl upsertEntry r) n = some (updateOccupied e e.Mtu d) := by
  induction L with
  | nil => intro r n e d hf _; simp at hf
  | cons x L ih =>
    intro r n e d hf hl
    rw [List.foldl_cons]
    by_cases hdx : decodeName x = some n
    · have hbx : (decodeName x == some n) = true := by simp [hdx]
      rw [List.filter_cons, if_pos hbx] at hf
      have hxe : x = e := (List.cons.injEq _ _ _ _ ▸ hf).1
      have hfl : L.filter (fun y => decodeName y == some n) = [] :=
        (List.cons.injEq _ _ _ _ ▸ hf).2
      subst hxe
      rw [foldl_lookup_unmatched L _ n (filter_decode_nil L n hfl)]
      exact upsertEntry_lookup_occupied r x n d hdx hl
    · have hbx : (decodeName x == some n) = false := by simpa using hdx
      rw [List.filter_cons, hbx] at hf
      simp only [Bool.false_eq_true, if_false] at hf
      exact ih _ n e d hf (by rw [upsertEntry_lookup_ne r x n hdx]; exact hl)

theorem foldl_lookup_single_vacant (L : List MibIfRow2) :
    ∀ (r : Registry) (n : IfaceName) (e : MibIfRow2),
      L.filter (fun x => decodeName x == some n) = [e] →
      mlookup r n = none →
      mlookup (L.foldl upsertEntry r) n = some (newRecord e e.Mtu) := by
  induction L with
  | nil => intro r n e hf _; simp at hf
  | cons x L ih =>
    intro r n e hf hl
    rw [List.foldl_cons]
    by_cases hdx : decodeName x = some n
    · have hbx : (decodeName x == some n) = true := by simp [hdx]
      rw [List.filter_cons, if_pos hbx] at hf
      have hxe : x = e := (List.cons.injEq _ _ _ _ ▸ hf).1
      have hfl : L.filter (fun y => decodeName y == some n) = [] :=
        (List.cons.injEq _ _ _ _ ▸ hf).2
      subst hxe
      rw [foldl_lookup_unmatched L _ n (filter_decode_nil L n hfl)]
      exact upsertEntry_lookup_vacant r x n hdx hl
    · have hbx : (decodeName x == some n) = false := by simpa using hdx
      rw [List.filter_cons, hbx] at hf
      simp only [Bool.false_eq_true, if_false] at hf
      exact ih _ n e hf (by rw [upsertEntry_lookup_ne r x n hdx]; exact hl)

theorem foldl_lookup_double_vacant (L : List MibIfRow2) :
    ∀ (r : Registry) (n : IfaceName) (e1 e2 : MibIfRow2),
      L.filter (fun x => decodeName x == some n) = [e1, e2] →
      mlookup r n = none →
      mlookup (L.foldl upsertEntry r) n
        = some (updateOccupied e2 e2.Mtu (newRecord e1 e1.Mtu)) := by
  induction L with
  | nil => intro r n e1 e2 hf _; simp at hf
  | cons x L ih =>
    intro r n e1 e2 hf hl
    rw [List.foldl_cons]
    by_cases hdx : decodeName x = some n
    · have hbx : (decodeName x == some n) = true := by simp [hdx]
      rw [List.filter_cons, if_pos hbx] at hf
      have hxe : x = e1 := (List.cons.injEq _ _ _ _ ▸ hf).1
      have hfl : L.filter (fun y => decodeName y == some n) = [e2] :=
        (List.cons.injEq _ _ _ _ ▸ hf).2
      subst hxe
      exact foldl_lookup_single_occupied L _ n e2 (newRecord x x.Mtu) hfl
        (upsertEntry_lookup_vacant r x n hdx hl)
    · have hbx : (decodeName x == some n) = false := by simpa using hdx
      rw [List.filter_cons, hbx] at hf
      simp only [Bool.false_eq_true, if_false] at hf
      exact ih _ n e1 e2 hf (by rw [upsertEntry_lookup_ne r x n hdx]; exact hl)

theorem mlookup_resetUpdated (r : Registry) (n : IfaceName) :
    mlookup (resetUpdated r) n
      = (mlookup r n).map (fun d => { d with updated := false }) := by
  induction r with
  | nil => rfl
  | cons p rest ih =>
    obtain ⟨k, v⟩ := p
    by_cases hk : k = n
    · subst hk
      simp [resetUpdated, mlookup_cons]
    · simp only [resetUpdated, List.map_cons, mlookup_cons, if_neg hk]
      simpa [resetUpdated] using ih

theorem mlookup_refreshAddrs (f : IfaceName → NetworkDataInner → List IpNetwork)
    (r : Registry) (n : IfaceName) :
    mlookup (refreshNetworksAddresses f r) n
      = (mlookup r n).map (fun d => { d with ip_networks := f n d }) := by
  induction r with
  | nil => rfl
  | cons p rest ih =>
    obtain ⟨k, v⟩ := p
    by_cases hk : k = n
    · subst hk
      simp [refreshNetworksAddresses, mlookup_cons]
    · simp only [refreshNetworksAddresses, List.map_cons, mlookup_cons, if_neg hk]
      simpa [refreshNetworksAddresses] using ih

theorem retainUpdated_cons_true (k : IfaceName) (v : NetworkDataInner) (rest : Registry)
    (hv : v.updated = true) :
    retainUpdated ((k, v) :: rest)
      = (k, { v with updated := false }) :: retainUpdated rest := by
  simp [retainUpdated, hv]

theorem retainUpdated_cons_false (k : IfaceName) (v : NetworkDataInner) (rest : Registry)
    (hv : v.updated = false) :
    retainUpdated ((k, v) :: rest) = retainUpdated rest := by
  simp [retainUpdated, hv]

theorem mlookup_retainUpdated_none (r : Registry) (n : IfaceName)
    (h : mlookup r n = none) : mlookup (retainUpdated r) n = none := by
  induction r with
  | nil => rfl
  | cons p rest ih =>
    obtain ⟨k, v⟩ := p
    rw [mlookup_cons] at h
    by_cases hk : k = n
    · rw [if_pos hk] at h
      exact absurd h (by simp)
    · rw [if_neg hk] at h
      cases hv : v.updated with
      | true =>
        rw [retainUpdated_cons_true k v rest hv, mlookup_cons, if_neg hk]
        exact ih h
      | false =>
        rw [retainUpdated_cons_false k v rest hv]
        exact ih h

theorem mlookup_retainUpdated (r : Registry) (n : IfaceName)
    (hnd : (mkeys r).Nodup) :
    mlookup (retainUpdated r) n
      = match mlookup r n with
        | some d => if d.updated then some { d with updated := false } else none
        | none => none := by
  induction r with
  | nil => rfl
  | cons p rest ih =>
    obtain ⟨k, v⟩ := p
    have hnd0 := List.nodup_cons.mp hnd
    have hnd2 : (mkeys rest).Nodup := hnd0.2
    have hknotin : k ∉ mkeys rest := hnd0.1
    by_cases hk : k = n
    · subst hk
      have hrest : mlookup rest k = none := (mlookup_none_iff rest k).mpr hknotin
      cases hv : v.updated with
      | true =>
        rw [retainUpdated_cons_true k v rest hv, mlookup_cons, if_pos rfl]
        simp [mlookup_cons, hv]
      | false =>
        rw [retainUpdated_cons_false k v rest hv, mlookup_retainUpdated_none rest k hrest]
        simp [mlookup_cons, hv]
    · cases hv : v.updated with
      | true =>
        rw [retainUpdated_cons_true k v rest hv, mlookup_cons, if_neg hk, ih hnd2]
        simp [mlookup_cons, hk]
      | false =>
        rw [retainUpdated_cons_false k v rest hv, ih hnd2]
        simp [mlookup_cons, hk]

theorem retainUpdated_updated_false (r : Registry) (n : IfaceName) (d : NetworkDataInner)
    (h : mlookup (retainUpdated r) n = some d) : d.updated = false := by
  have hmem := mlookup_mem _ n d h
  unfold retainUpdated at hmem
  obtain ⟨p, hp, heq⟩ := List.mem_map.mp hmem
  have h2 : ({ p.2 with updated := false } : NetworkDataInner) = d := by
    injection heq
  rw [← h2]

theorem mkeys_resetUpdated (r : Registry) : mkeys (resetUpdated r) = mkeys r := by
  induction r with
  | nil => rfl
  | cons p rest ih =>
    simp only [resetUpdated, mkeys, List.map_cons] at ih ⊢
    rw [ih]

theorem mkeys_refreshAddrs (f : IfaceName → NetworkDataInner → List IpNetwork)
    (r : Registry) : mkeys (refreshNetworksAddresses f r) = mkeys r := by
  induction r with
  | nil => rfl
  | cons p rest ih =>
    simp only [refreshNetworksAddresses, mkeys, List.map_cons] at ih ⊢
    rw [ih]

theorem mkeys_upsertEntry_nodup (r : Registry) (e : MibIfRow2)
    (h : (mkeys r).Nodup) : (mkeys (upsertEntry r e)).Nodup := by
  cases hd : decodeName e with
  | none => simp only [upsertEntry, hd]; exact h
  | some n =>
    cases hl : mlookup r n with
    | some d =>
      simp only [upsertEntry, hd, hl]
      rw [mkeys_mupdate]
      exact h
    | none =>
      simp only [upsertEntry, hd, hl]
      have hap : mkeys (r ++ [(n, newRecord e e.Mtu)]) = mkeys r ++ [n] := by
        simp [mkeys]
      rw [hap]
      have hnotin : n ∉ mkeys r := (mlookup_none_iff r n).mp hl
      refine List.Nodup.append h (List.nodup_singleton n) ?_
      intro x hx hx2
      rw [List.mem_singleton] at hx2
      subst hx2
      exact hnotin hx

theorem foldl_upsert_nodup (L : List MibIfRow2) :
    ∀ r : Registry, (mkeys r).Nodup → (mkeys (L.foldl upsertEntry r)).Nodup := by
  induction L with
  | nil => intro r h; exact h
  | cons x L ih =>
    intro r h
    rw [List.foldl_cons]
    exact ih _ (mkeys_upsertEntry_nodup r x h)

theorem mkeys_retainUpdated_subset (r : Registry) (x : IfaceName)
    (h : x ∈ mkeys (retainUpdated r)) : x ∈ mkeys r := by
  induction r with
  | nil => exact h
  | cons p rest ih =>
    obtain ⟨k, v⟩ := p
    cases hv : v.updated with
    | true =>
      rw [retainUpdated_cons_true k v rest hv] at h
      rcases List.mem_cons.mp h with h1 | h1
      · exact List.mem_cons.mpr (Or.inl h1)
      · exact List.mem_cons.mpr (Or.inr (ih h1))
    | false =>
      rw [retainUpdated_cons_false k v rest hv] at h
      exact List.mem_cons.mpr (Or.inr (ih h))

theorem retainUpdated_nodup (r : Registry) (h : (mkeys r).Nodup) :
    (mkeys (retainUpdated r)).Nodup := by
  induction r with
  | nil => exact h
  | cons p rest ih =>
    obtain ⟨k, v⟩ := p
    have h0 := List.nodup_cons.mp h
    cases hv : v.updated with
    | true =>
      rw [retainUpdated_cons_true k v rest hv]
      refine List.nodup_cons.mpr ⟨?_, ih h0.2⟩
      intro hmem
      exact h0.1 (mkeys_retainUpdated_subset rest k hmem)
    | false =>
      rw [retainUpdated_cons_false k v rest hv]
      exact ih h0.2

/-- One-step decomposition of a successful refresh: reset the seen flags,
fold the upsert step over the attempted rows, optionally evict, then run
the address-refresh collaborator. -/
theorem refresh_some_eq (s : NetworksInner) (t : List MibIfRow2) (rs : Bool)
    (f : IfaceName → NetworkDataInner → List IpNetwork) :
    (s.refresh (some t) rs f).state.interfaces
      = refreshNetworksAddresses f
          (if rs then retainUpdated ((attempted t).foldl upsertEntry (resetUpdated s.interfaces))
           else (attempted t).foldl upsertEntry (resetUpdated s.interfaces)) := by
  have h1 : (s.refresh (some t) rs f).state.interfaces
      = refreshNetworksAddresses f
          (if rs then
            retainUpdated (upsertLoop t (classifyLoop 0 t [] []).1 (classifyLoop 0 t [] []).2
              (resetUpdated s.interfaces))
           else upsertLoop t (classifyLoop 0 t [] []).1 (classifyLoop 0 t [] []).2
              (resetUpdated s.interfaces)) := rfl
  rw [h1, upsertLoop_eq_foldl]
  rfl

theorem mlookup_retainUpdated_some_true (r : Registry) (n : IfaceName)
    (d : NetworkDataInner) (hnd : (mkeys r).Nodup)
    (h : mlookup r n = some d) (hu : d.updated = true) :
    mlookup (retainUpdated r) n = some { d with updated := false } := by
  rw [mlookup_retainUpdated r n hnd, h]
  simp [hu]

theorem mlookup_retainUpdated_some_false (r : Registry) (n : IfaceName)
    (d : NetworkDataInner) (hnd : (mkeys r).Nodup)
    (h : mlookup r n = some d) (hu : d.updated = false) :
    mlookup (retainUpdated r) n = none := by
  rw [mlookup_retainUpdated r n hnd, h]
  simp [hu]

/-- The UTF-16 alias buffer spelling `eth0`, null-terminated. -/
def ethAlias : List Nat := [101, 116, 104, 48, 0]

/-- The decoded name `eth0`. -/
def ethName : IfaceName := [101, 116, 104, 48]

/-- A sample interface GUID. -/
def eth0Guid : Guid := ⟨0, 1, 2, [3, 4, 5, 6, 7, 8, 9, 10]⟩

/-- A connected hardware candidate named `eth0` with the given cumulative
received-octets counter. -/
def eth0Row (octIn : Nat) : MibIfRow2 :=
  { TransmitLinkSpeed := 1000
    ReceiveLinkSpeed := 1000
    MediaConnectState := 1
    PhysicalAddressLength := 6
    InterfaceGuid := eth0Guid
    Alias := ethAlias
    Mtu := 1500
    OutOctets := 0
    InOctets := octIn
    InUcastPkts := 0
    InNUcastPkts := 0
    OutUcastPkts := 0
    OutNUcastPkts := 0
    InErrors := 0
    OutErrors := 0 }

/-- The trivial address-refresh collaborator (assigns no IP networks). -/
def noAddrs : IfaceName → NetworkDataInner → List IpNetwork := fun _ _ => []

/-- A second, distinct interface GUID. -/
def eth1Guid : Guid := ⟨0, 9, 9, [9, 9, 9, 9, 9, 9, 9, 9]⟩

/-- A candidate with the `eth0` alias but a distinct hardware group. -/
def eth0RowB (octIn : Nat) : MibIfRow2 :=
  { eth0Row octIn with InterfaceGuid := eth1Guid }

/-- A candidate with a zero physical address length (filtered out). -/
def zeroPhysRow : MibIfRow2 :=
  { eth0Row 42 with PhysicalAddressLength := 0 }

/-- A candidate whose alias is an unpaired UTF-16 high surrogate, so that
name decoding fails. -/
def badAliasRow : MibIfRow2 :=
  { eth0Row 0 with Alias := [0xD800, 0], InterfaceGuid := eth1Guid }

/-! ## Basic helper lemmas -/

theorem updateOccupied_mtu (e : MibIfRow2) (m : Nat) (d : NetworkDataInner) :
    (updateOccupied e m d).mtu = m := by
  by_cases h : d.mtu = m <;> simp [updateOccupied, h]

/-! ## Claim theorems -/

/-- C3: each delta accessor returns exactly `current.saturating_sub(prev)`
(which is `0` precisely when `current ≤ prev`, and never exceeds
`current`, so it cannot underflow, overflow, or be negative), and each
total accessor returns exactly `current`.  The accessors are plain
functions of the record in this embedding, so they have no side effects
and repeated reads of the same record value are identical by
construction. -/
theorem C3_delta_total_accessors (d : NetworkDataInner) :
    (d.received = satSub d.current_in d.old_in
      ∧ d.total_received = d.current_in
      ∧ (d.received = 0 ↔ d.current_in ≤ d.old_in)
      ∧ d.received ≤ d.current_in)
    ∧ (d.transmitted = satSub d.current_out d.old_out
      ∧ d.total_transmitted = d.current_out
      ∧ (d.transmitted = 0 ↔ d.current_out ≤ d.old_out)
      ∧ d.transmitted ≤ d.current_out)
    ∧ (d.packets_received = satSub d.packets_in d.old_packets_in
      ∧ d.total_packets_received = d.packets_in
      ∧ (d.packets_received = 0 ↔ d.packets_in ≤ d.old_packets_in)
      ∧ d.packets_received ≤ d.packets_in)
    ∧ (d.packets_transmitted = satSub d.packets_out d.old_packets_out
      ∧ d.total_packets_transmitted = d.packets_out
      ∧ (d.packets_transmitted = 0 ↔ d.packets_out ≤ d.old_packets_out)
      ∧ d.packets_transmitted ≤ d.packets_out)
    ∧ (d.errors_on_received = satSub d.errors_in d.old_errors_in
      ∧ d.total_errors_on_received = d.errors_in
      ∧ (d.errors_on_received = 0 ↔ d.errors_in ≤ d.old_errors_in)
      ∧ d.errors_on_received ≤ d.errors_in)
    ∧ (d.errors_on_transmitted = satSub d.errors_out d.old_errors_out
      ∧ d.total_errors_on_transmitted = d.errors_out
      ∧ (d.errors_on_transmitted = 0 ↔ d.errors_out ≤ d.old_errors_out)
      ∧ d.errors_on_transmitted ≤ d.errors_out) :=
  ⟨⟨rfl, rfl, Nat.sub_eq_zero_iff_le, Nat.sub_le _ _⟩,
   ⟨rfl, rfl, Nat.sub_eq_zero_iff_le, Nat.sub_le _ _⟩,
   ⟨rfl, rfl, Nat.sub_eq_zero_iff_le, Nat.sub_le _ _⟩,
   ⟨rfl, rfl, Nat.sub_eq_zero_iff_le, Nat.sub_le _ _⟩,
   ⟨rfl, rfl, Nat.sub_eq_zero_iff_le, Nat.sub_le _ _⟩,
   ⟨rfl, rfl, Nat.sub_eq_zero_iff_le, Nat.sub_le _ _⟩⟩

/-- C6: a failed table query (`query = none`, the error return of
`GetIfTable2`) leaves the whole refresh a silent no-op: the returned state
is exactly the pre-call state (every record and field unchanged, so
`list()` is value-identical), no release call and no address-refresh call
are made, and the call returns normally. -/
theorem C6_query_failure_is_noop (s : NetworksInner) (rs : Bool)
    (f : IfaceName → NetworkDataInner → List IpNetwork) :
    s.refresh none rs f = ⟨s, 0, 0⟩
      ∧ (s.refresh none rs f).state.list = s.list :=
  ⟨rfl, rfl⟩

/-- C9: the instrumented count of `FreeMibTable` calls is one on every
execution whose acquisition succeeded (for every table contents, flag
value, collaborator and starting state — covering the paths where all
entries are filtered, deduplicated or fail to decode, since the model's
success branch is total in those parameters) and zero when acquisition
failed. -/
theorem C9_table_released_exactly_once (q : Option (List MibIfRow2)) (rs : Bool)
    (f : IfaceName → NetworkDataInner → List IpNetwork) (s : NetworksInner) :
    ((s.refresh q rs f).frees = if q.isSome then 1 else 0)
      ∧ ((s.refresh q rs f).frees = 1 ↔ q ≠ none) := by
  cases q <;> simp [NetworksInner.refresh]

/-- C2: the occupied-entry upsert shifts every counter pair
`current → prev`, installs the newly observed platform values (packets as
the saturating unicast + non-unicast sum), updates `mtu`, sets the seen
flag (`updated`), and leaves `mac_addr` and `ip_networks` untouched;
if a raw counter is unchanged since the record's current value, the
corresponding delta is `0` after the update; and in the §8 scenario
(empty registry, `eth0` seen with 1000 received octets, then 1500) the
second refresh yields `total_received = 1500` and `received = 500`, for
arbitrary address-refresh collaborators `f`, `g`. -/
theorem C2_occupied_update (e : MibIfRow2) (d : NetworkDataInner)
    (f g : IfaceName → NetworkDataInner → List IpNetwork) :
    ((updateOccupied e e.Mtu d).current_in = e.InOctets
      ∧ (updateOccupied e e.Mtu d).old_in = d.current_in
      ∧ (updateOccupied e e.Mtu d).current_out = e.OutOctets
      ∧ (updateOccupied e e.Mtu d).old_out = d.current_out
      ∧ (updateOccupied e e.Mtu d).packets_in = satAdd e.InUcastPkts e.InNUcastPkts
      ∧ (updateOccupied e e.Mtu d).old_packets_in = d.packets_in
      ∧ (updateOccupied e e.Mtu d).packets_out = satAdd e.OutUcastPkts e.OutNUcastPkts
      ∧ (updateOccupied e e.Mtu d).old_packets_out = d.packets_out
      ∧ (updateOccupied e e.Mtu d).errors_in = e.InErrors
      ∧ (updateOccupied e e.Mtu d).old_errors_in = d.errors_in
      ∧ (updateOccupied e e.Mtu d).errors_out = e.OutErrors
      ∧ (updateOccupied e e.Mtu d).old_errors_out = d.errors_out
      ∧ (updateOccupied e e.Mtu d).mtu = e.Mtu
      ∧ (updateOccupied e e.Mtu d).updated = true
      ∧ (updateOccupied e e.Mtu d).mac_addr = d.mac_addr
      ∧ (updateOccupied e e.Mtu d).ip_networks = d.ip_networks)
    ∧ ((e.InOctets = d.current_in → (updateOccupied e e.Mtu d).received = 0)
      ∧ (e.OutOctets = d.current_out → (updateOccupied e e.Mtu d).transmitted = 0)
      ∧ (satAdd e.InUcastPkts e.InNUcastPkts = d.packets_in →
          (updateOccupied e e.Mtu d).packets_received = 0)
      ∧ (satAdd e.OutUcastPkts e.OutNUcastPkts = d.packets_out →
          (updateOccupied e e.Mtu d).packets_transmitted = 0)
      ∧ (e.InErrors = d.errors_in → (updateOccupied e e.Mtu d).errors_on_received = 0)
      ∧ (e.OutErrors = d.errors_out → (updateOccupied e e.Mtu d).errors_on_transmitted = 0))
    ∧ ((mlookup ((NetworksInner.new.refresh (some [eth0Row 1000]) false f).state.interfaces)
          ethName).map NetworkDataInner.total_received = some 1000
      ∧ (mlookup ((NetworksInner.new.refresh (some [eth0Row 1000]) false f).state.interfaces)
          ethName).map NetworkDataInner.received = some 0
      ∧ (mlookup (((NetworksInner.new.refresh (some [eth0Row 1000]) false f).state.refresh
            (some [eth0Row 1500]) false g).state.interfaces)
          ethName).map NetworkDataInner.total_received = some 1500
      ∧ (mlookup (((NetworksInner.new.refresh (some [eth0Row 1000]) false f).state.refresh
            (some [eth0Row 1500]) false g).state.interfaces)
          ethName).map NetworkDataInner.received = some 500) := by
  refine ⟨⟨rfl, rfl, rfl, rfl, rfl, rfl, rfl, rfl, rfl, rfl, rfl, rfl,
      updateOccupied_mtu e e.Mtu d, rfl, rfl, rfl⟩,
    ⟨?_, ?_, ?_, ?_, ?_, ?_⟩, ⟨rfl, rfl, rfl, rfl⟩⟩
  all_goals
    intro h
    simp [NetworkDataInner.received, NetworkDataInner.transmitted,
      NetworkDataInner.packets_received, NetworkDataInner.packets_transmitted,
      NetworkDataInner.errors_on_received, NetworkDataInner.errors_on_transmitted,
      updateOccupied, satSub, h]

/-- C7: a raw entry is discarded by the candidate filter exactly when both
link speeds are zero, or it is disconnected, or its physical address
length is zero; a surviving entry reaches the decode/upsert stage unless
its group identifier is duplicated (so the only later discards are
duplicate-group suppression and decode failure); and a candidate with zero
physical address length never causes a registry entry: with no record
under the name beforehand and no other upsert-stage candidate decoding to
that name, the name is absent after refresh regardless of flag or
collaborator. -/
theorem C7_candidate_filter (t : List MibIfRow2) (e : MibIfRow2) (n : IfaceName)
    (s : NetworksInner) (rs : Bool)
    (f : IfaceName → NetworkDataInner → List IpNetwork)
    (hphys : e.PhysicalAddressLength = 0)
    (hno : mlookup s.interfaces n = none)
    (hother : ∀ x ∈ attempted t, decodeName x ≠ some n) :
    (∀ e2 : MibIfRow2,
        survives e2 = false ↔
          ((e2.TransmitLinkSpeed = 0 ∧ e2.ReceiveLinkSpeed = 0)
            ∨ e2.MediaConnectState = mediaConnectStateDisconnected
            ∨ e2.PhysicalAddressLength = 0))
    ∧ (∀ e2 : MibIfRow2, survives e2 = false → e2 ∉ attempted t)
    ∧ (∀ e2 ∈ t, survives e2 = true → groupCount t (entryGroupId e2) = 1 →
        e2 ∈ attempted t)
    ∧ survives e = false
    ∧ mlookup ((s.refresh (some t) rs f).state.interfaces) n = none := by
  have hchar : ∀ e2 : MibIfRow2,
      survives e2 = false ↔
        ((e2.TransmitLinkSpeed = 0 ∧ e2.ReceiveLinkSpeed = 0)
          ∨ e2.MediaConnectState = mediaConnectStateDisconnected
          ∨ e2.PhysicalAddressLength = 0) := by
    intro e2
    simp [survives]
    tauto
  refine ⟨hchar, ?_, ?_, (hchar e).mpr (Or.inr (Or.inr hphys)), ?_⟩
  · intro e2 hs2 hmem
    rw [attempted_eq] at hmem
    have h1 := (List.mem_filter.mp (List.mem_filter.mp hmem).1).2
    rw [hs2] at h1
    exact Bool.false_ne_true h1
  · intro e2 hmem hs2 hgc
    rw [attempted_eq]
    exact List.mem_filter.mpr ⟨List.mem_filter.mpr ⟨hmem, hs2⟩, by simp [hgc]⟩
  · rw [refresh_some_eq, mlookup_refreshAddrs]
    have hfold : mlookup ((attempted t).foldl upsertEntry (resetUpdated s.interfaces)) n
        = none := by
      rw [foldl_lookup_unmatched _ _ n hother, mlookup_resetUpdated, hno]
      rfl
    by_cases hrs : rs = true
    · rw [if_pos hrs, mlookup_retainUpdated_none _ n hfold]
      rfl
    · rw [if_neg hrs, hfold]
      rfl

/-- C8: a candidate whose alias fails to decode is skipped in isolation:
the loop step for it (after the group re-check) leaves the registry
exactly as it was, no record is created or modified for it, and the
remaining candidates are processed exactly as if it were absent. -/
theorem C8_decode_failure_skipped (t : List MibIfRow2) (groups : GMap)
    (i : Nat) (id : GroupId) (rest : List (Nat × GroupId)) (r : Registry)
    (L1 L2 : List MibIfRow2) (x : MibIfRow2)
    (hd : decodeName (t.getD i default) = none) (hdx : decodeName x = none) :
    upsertLoop t groups ((i, id) :: rest) r = upsertLoop t groups rest r
    ∧ upsertEntry r x = r
    ∧ (L1 ++ x :: L2).foldl upsertEntry r = (L1 ++ L2).foldl upsertEntry r := by
  have hstep : ∀ r2 : Registry, upsertEntry r2 x = r2 := by
    intro r2
    simp [upsertEntry, hdx]
  refine ⟨?_, hstep r, ?_⟩
  · rw [upsertLoop_cons]
    by_cases hc : glook groups id > 1
    · rw [if_pos hc]
    · rw [if_neg hc]
      congr 1
      simp only [upsertEntry]
      rw [hd]
  · rw [List.foldl_append, List.foldl_append, List.foldl_cons, hstep]

theorem C8_witness :
    upsertLoop [badAliasRow] [] [(0, entryGroupId badAliasRow)] []
        = upsertLoop [badAliasRow] [] [] []
    ∧ upsertEntry [] badAliasRow = []
    ∧ ([eth0Row 5] ++ badAliasRow :: [eth0Row 7]).foldl upsertEntry []
        = ([eth0Row 5] ++ [eth0Row 7]).foldl upsertEntry [] :=
  C8_decode_failure_skipped [badAliasRow] [] 0 (entryGroupId badAliasRow) [] []
    [eth0Row 5] [eth0Row 7] badAliasRow (by decide) (by decide)

theorem C7_witness :
    survives zeroPhysRow = false
    ∧ mlookup (((⟨[]⟩ : NetworksInner).refresh (some [zeroPhysRow]) false
        noAddrs).state.interfaces) ethName = none := by
  have h := C7_candidate_filter [zeroPhysRow] zeroPhysRow ethName ⟨[]⟩ false noAddrs
    (by decide) (by decide) (by decide)
  exact ⟨h.2.2.2.1, h.2.2.2.2⟩

theorem C1_witness :
    [eth0Row 100, eth0Row 200].getD 0 default ∉ attempted [eth0Row 100, eth0Row 200]
    ∧ [eth0Row 100, eth0Row 200].getD 1 default ∉ attempted [eth0Row 100, eth0Row 200] := by
  have h := C1_duplicate_group_suppression [eth0Row 100, eth0Row 200] 0 1
    (by decide) (by decide) (by decide) (by decide) (by decide) (by decide)
  exact ⟨h.2.2.2.1, h.2.2.2.2⟩

theorem C2_witness :
    (updateOccupied (eth0Row 1000)
        (eth0Row 1000).Mtu (newRecord (eth0Row 1000) (eth0Row 1000).Mtu)).received = 0
    ∧ (updateOccupied (eth0Row 1000)
        (eth0Row 1000).Mtu (newRecord (eth0Row 1000) (eth0Row 1000).Mtu)).transmitted = 0
    ∧ (updateOccupied (eth0Row 1000)
        (eth0Row 1000).Mtu (newRecord (eth0Row 1000) (eth0Row 1000).Mtu)).packets_received = 0
    ∧ (updateOccupied (eth0Row 1000)
        (eth0Row 1000).Mtu (newRecord (eth0Row 1000) (eth0Row 1000).Mtu)).packets_transmitted = 0
    ∧ (updateOccupied (eth0Row 1000)
        (eth0Row 1000).Mtu (newRecord (eth0Row 1000) (eth0Row 1000).Mtu)).errors_on_received = 0
    ∧ (updateOccupied (eth0Row 1000)
        (eth0Row 1000).Mtu (newRecord (eth0Row 1000) (eth0Row 1000).Mtu)).errors_on_transmitted = 0 := by
  have h := (C2_occupied_update (eth0Row 1000)
    (newRecord (eth0Row 1000) (eth0Row 1000).Mtu) noAddrs noAddrs).2.1
  exact ⟨h.1 rfl, h.2.1 rfl, h.2.2.1 rfl, h.2.2.2.1 rfl, h.2.2.2.2.1 rfl,
    h.2.2.2.2.2 rfl⟩

/-- C4: the vacant-entry upsert creates a record with `current = prev` for
every counter pair (so every delta accessor reads `0`), the unspecified
MAC, empty IP networks, the candidate's MTU and the seen flag set; and at
the refresh level, when the name had no record and exactly one
upsert-stage candidate decodes to it, the record present after the refresh
returns `0` from every delta accessor. -/
theorem C4_first_observation_zero_delta (e : MibIfRow2) (t : List MibIfRow2)
    (s : NetworksInner) (rs : Bool)
    (f : IfaceName → NetworkDataInner → List IpNetwork) (n : IfaceName)
    (hnd : (mkeys s.interfaces).Nodup)
    (hno : mlookup s.interfaces n = none)
    (hone : (attempted t).filter (fun x => decodeName x == some n) = [e]) :
    ((newRecord e e.Mtu).current_out = e.OutOctets
      ∧ (newRecord e e.Mtu).old_out = e.OutOctets
      ∧ (newRecord e e.Mtu).current_in = e.InOctets
      ∧ (newRecord e e.Mtu).old_in = e.InOctets
      ∧ (newRecord e e.Mtu).packets_in = satAdd e.InUcastPkts e.InNUcastPkts
      ∧ (newRecord e e.Mtu).old_packets_in = satAdd e.InUcastPkts e.InNUcastPkts
      ∧ (newRecord e e.Mtu).packets_out = satAdd e.OutUcastPkts e.OutNUcastPkts
      ∧ (newRecord e e.Mtu).old_packets_out = satAdd e.OutUcastPkts e.OutNUcastPkts
      ∧ (newRecord e e.Mtu).errors_in = e.InErrors
      ∧ (newRecord e e.Mtu).old_errors_in = e.InErrors
      ∧ (newRecord e e.Mtu).errors_out = e.OutErrors
      ∧ (newRecord e e.Mtu).old_errors_out = e.OutErrors
      ∧ (newRecord e e.Mtu).mac_addr = MacAddr.UNSPECIFIED
      ∧ (newRecord e e.Mtu).ip_networks = []
      ∧ (newRecord e e.Mtu).mtu = e.Mtu
      ∧ (newRecord e e.Mtu).updated = true)
    ∧ ((newRecord e e.Mtu).received = 0
      ∧ (newRecord e e.Mtu).transmitted = 0
      ∧ (newRecord e e.Mtu).packets_received = 0
      ∧ (newRecord e e.Mtu).packets_transmitted = 0
      ∧ (newRecord e e.Mtu).errors_on_received = 0
      ∧ (newRecord e e.Mtu).errors_on_transmitted = 0)
    ∧ (∃ d, mlookup ((s.refresh (some t) rs f).state.interfaces) n = some d
        ∧ d.received = 0 ∧ d.transmitted = 0 ∧ d.packets_received = 0
        ∧ d.packets_transmitted = 0 ∧ d.errors_on_received = 0
        ∧ d.errors_on_transmitted = 0) := by
  refine ⟨⟨rfl, rfl, rfl, rfl, rfl, rfl, rfl, rfl, rfl, rfl, rfl, rfl, rfl, rfl, rfl, rfl⟩,
    ⟨Nat.sub_self _, Nat.sub_self _, Nat.sub_self _, Nat.sub_self _,
      Nat.sub_self _, Nat.sub_self _⟩, ?_⟩
  rw [refresh_some_eq, mlookup_refreshAddrs]
  have hre : mlookup (resetUpdated s.interfaces) n = none := by
    rw [mlookup_resetUpdated, hno]
    rfl
  have hfold : mlookup ((attempted t).foldl upsertEntry (resetUpdated s.interfaces)) n
      = some (newRecord e e.Mtu) :=
    foldl_lookup_single_vacant _ _ n e hone hre
  by_cases hrs : rs = true
  · rw [if_pos hrs]
    have hnd2 : (mkeys ((attempted t).foldl upsertEntry (resetUpdated s.interfaces))).Nodup :=
      foldl_upsert_nodup _ _ (by rw [mkeys_resetUpdated]; exact hnd)
    rw [mlookup_retainUpdated_some_true _ n _ hnd2 hfold rfl]
    exact ⟨_, rfl, Nat.sub_self _, Nat.sub_self _, Nat.sub_self _, Nat.sub_self _,
      Nat.sub_self _, Nat.sub_self _⟩
  · rw [if_neg hrs, hfold]
    exact ⟨_, rfl, Nat.sub_self _, Nat.sub_self _, Nat.sub_self _, Nat.sub_self _,
      Nat.sub_self _, Nat.sub_self _⟩

theorem C4_witness :
    (newRecord (eth0Row 1000) (eth0Row 1000).Mtu).received = 0
    ∧ ∃ d, mlookup (((⟨[]⟩ : NetworksInner).refresh (some [eth0Row 1000]) true
        noAddrs).state.interfaces) ethName = some d ∧ d.received = 0 := by
  have h := C4_first_observation_zero_delta (eth0Row 1000) [eth0Row 1000] ⟨[]⟩ true
    noAddrs ethName (by decide) (by decide) (by decide)
  obtain ⟨d, hl, h1, -, -, -, -, -⟩ := h.2.2
  exact ⟨h.2.1.1, d, hl, h1⟩

/-- C5: after a successful refresh, a pre-existing record is absent
exactly when `remove_stale` was set and no upsert-stage candidate decoded
to its name; with `remove_stale` set every record in the final registry
has its seen flag (`updated`) reset to false; and with `remove_stale`
unset an unmatched record survives with all twelve counter fields
unchanged. -/
theorem C5_eviction_policy (t : List MibIfRow2) (rs : Bool)
    (f : IfaceName → NetworkDataInner → List IpNetwork) (s : NetworksInner)
    (n : IfaceName) (d : NetworkDataInner)
    (hnd : (mkeys s.interfaces).Nodup) :
    (mlookup s.interfaces n = some d →
      ((mlookup ((s.refresh (some t) rs f).state.interfaces) n = none
          ↔ (rs = true ∧ ¬∃ x ∈ attempted t, decodeName x = some n))
        ∧ (rs = false → (¬∃ x ∈ attempted t, decodeName x = some n) →
            ∃ d2, mlookup ((s.refresh (some t) rs f).state.interfaces) n = some d2
              ∧ d2.current_in = d.current_in ∧ d2.old_in = d.old_in
              ∧ d2.current_out = d.current_out ∧ d2.old_out = d.old_out
              ∧ d2.packets_in = d.packets_in ∧ d2.old_packets_in = d.old_packets_in
              ∧ d2.packets_out = d.packets_out ∧ d2.old_packets_out = d.old_packets_out
              ∧ d2.errors_in = d.errors_in ∧ d2.old_errors_in = d.old_errors_in
              ∧ d2.errors_out = d.errors_out ∧ d2.old_errors_out = d.old_errors_out)))
    ∧ (rs = true → ∀ (m : IfaceName) (d2 : NetworkDataInner),
        mlookup ((s.refresh (some t) rs f).state.interfaces) m = some d2 →
        d2.updated = false) := by
  have hnd2 : (mkeys ((attempted t).foldl upsertEntry (resetUpdated s.interfaces))).Nodup :=
    foldl_upsert_nodup _ _ (by rw [mkeys_resetUpdated]; exact hnd)
  constructor
  · intro hl
    have hre : mlookup (resetUpdated s.interfaces) n = some { d with updated := false } := by
      rw [mlookup_resetUpdated, hl]
      rfl
    constructor
    · by_cases hm : ∃ x ∈ attempted t, decodeName x = some n
      · obtain ⟨d2, hd2, hu2⟩ := foldl_lookup_matched (attempted t) _ n hm
        have hsome : ∃ d3, mlookup ((s.refresh (some t) rs f).state.interfaces) n
            = some d3 := by
          rw [refresh_some_eq, mlookup_refreshAddrs]
          by_cases hrs : rs = true
          · rw [if_pos hrs, mlookup_retainUpdated_some_true _ n d2 hnd2 hd2 hu2]
            exact ⟨_, rfl⟩
          · rw [if_neg hrs, hd2]
            exact ⟨_, rfl⟩
        obtain ⟨d3, hd3⟩ := hsome
        constructor
        · intro habs
          rw [habs] at hd3
          exact absurd hd3 (by simp)
        · intro ⟨_, hcon⟩
          exact absurd hm hcon
      · have hfold : mlookup ((attempted t).foldl upsertEntry (resetUpdated s.interfaces)) n
            = some { d with updated := false } := by
          rw [foldl_lookup_unmatched _ _ n (fun x hx hdx => hm ⟨x, hx, hdx⟩)]
          exact hre
        by_cases hrs : rs = true
        · rw [refresh_some_eq, mlookup_refreshAddrs, if_pos hrs,
            mlookup_retainUpdated_some_false _ n _ hnd2 hfold rfl]
          simp [hrs, hm]
        · rw [refresh_some_eq, mlookup_refreshAddrs, if_neg hrs, hfold]
          simp [hrs]
    · intro hrs hm
      have hfold : mlookup ((attempted t).foldl upsertEntry (resetUpdated s.interfaces)) n
          = some { d with updated := false } := by
        rw [foldl_lookup_unmatched _ _ n (fun x hx hdx => hm ⟨x, hx, hdx⟩)]
        exact hre
      rw [refresh_some_eq, mlookup_refreshAddrs, if_neg (by rw [hrs]; exact Bool.false_ne_true),
        hfold]
      exact ⟨_, rfl, rfl, rfl, rfl, rfl, rfl, rfl, rfl, rfl, rfl, rfl, rfl, rfl⟩
  · intro hrs m d2 hd2
    rw [refresh_some_eq, mlookup_refreshAddrs, if_pos hrs] at hd2
    cases hr : mlookup (retainUpdated ((attempted t).foldl upsertEntry
        (resetUpdated s.interfaces))) m with
    | none => rw [hr] at hd2; exact absurd hd2 (by simp)
    | some d3 =>
      rw [hr] at hd2
      have hval : ({ d3 with ip_networks := f m d3 } : NetworkDataInner) = d2 := by
        injection hd2
      have h3 : d3.updated = false := retainUpdated_updated_false _ m d3 hr
      rw [← hval]
      exact h3

theorem C5_witness :
    mlookup (((⟨[(ethName, newRecord (eth0Row 7) 1500)]⟩ : NetworksInner).refresh
        (some []) true noAddrs).state.interfaces) ethName = none := by
  have h := C5_eviction_policy [] true noAddrs ⟨[(ethName, newRecord (eth0Row 7) 1500)]⟩
    ethName (newRecord (eth0Row 7) 1500) (by decide)
  exact ((h.1 (by decide)).1).mpr ⟨rfl, by decide⟩

/-- C10: when exactly two upsert-stage candidates decode to the same name
that has no prior record, their upserts hit the same record in table
order: the final record holds the later candidate's raw counters as
`current` and the earlier candidate's as `prev`, so the delta accessors
can be nonzero immediately after the name's first refresh. -/
theorem C10_same_name_candidates_in_table_order (t : List MibIfRow2) (rs : Bool)
    (f : IfaceName → NetworkDataInner → List IpNetwork) (s : NetworksInner)
    (n : IfaceName) (e1 e2 : MibIfRow2)
    (hnd : (mkeys s.interfaces).Nodup)
    (hno : mlookup s.interfaces n = none)
    (htwo : (attempted t).filter (fun x => decodeName x == some n) = [e1, e2]) :
    ∃ d, mlookup ((s.refresh (some t) rs f).state.interfaces) n = some d
      ∧ d.current_in = e2.InOctets ∧ d.old_in = e1.InOctets
      ∧ d.current_out = e2.OutOctets ∧ d.old_out = e1.OutOctets
      ∧ d.packets_in = satAdd e2.InUcastPkts e2.InNUcastPkts
      ∧ d.old_packets_in = satAdd e1.InUcastPkts e1.InNUcastPkts
      ∧ d.packets_out = satAdd e2.OutUcastPkts e2.OutNUcastPkts
      ∧ d.old_packets_out = satAdd e1.OutUcastPkts e1.OutNUcastPkts
      ∧ d.errors_in = e2.InErrors ∧ d.old_errors_in = e1.InErrors
      ∧ d.errors_out = e2.OutErrors ∧ d.old_errors_out = e1.OutErrors
      ∧ d.received = satSub e2.InOctets e1.InOctets
      ∧ d.transmitted = satSub e2.OutOctets e1.OutOctets := by
  have hre : mlookup (resetUpdated s.interfaces) n = none := by
    rw [mlookup_resetUpdated, hno]
    rfl
  have hfold : mlookup ((attempted t).foldl upsertEntry (resetUpdated s.interfaces)) n
      = some (updateOccupied e2 e2.Mtu (newRecord e1 e1.Mtu)) :=
    foldl_lookup_double_vacant _ _ n e1 e2 htwo hre
  rw [refresh_some_eq, mlookup_refreshAddrs]
  by_cases hrs : rs = true
  · have hnd2 : (mkeys ((attempted t).foldl upsertEntry (resetUpdated s.interfaces))).Nodup :=
      foldl_upsert_nodup _ _ (by rw [mkeys_resetUpdated]; exact hnd)
    rw [if_pos hrs, mlookup_retainUpdated_some_true _ n _ hnd2 hfold rfl]
    exact ⟨_, rfl, rfl, rfl, rfl, rfl, rfl, rfl, rfl, rfl, rfl, rfl, rfl, rfl, rfl, rfl⟩
  · rw [if_neg hrs, hfold]
    exact ⟨_, rfl, rfl, rfl, rfl, rfl, rfl, rfl, rfl, rfl, rfl, rfl, rfl, rfl, rfl, rfl⟩

theorem C10_witness :
    ∃ d, mlookup (((⟨[]⟩ : NetworksInner).refresh
        (some [eth0Row 1000, eth0RowB 1500]) false noAddrs).state.interfaces) ethName
        = some d
      ∧ d.current_in = 1500 ∧ d.old_in = 1000 ∧ d.received = 500 := by
  obtain ⟨d, hl, hci, hoi, -, -, -, -, -, -, -, -, -, -, hrec, -⟩ :=
    C10_same_name_candidates_in_table_order [eth0Row 1000, eth0RowB 1500] false noAddrs
      ⟨[]⟩ ethName (eth0Row 1000) (eth0RowB 1500) (by decide) (by decide) (by decide)
  refine ⟨d, hl, hci, hoi, ?_⟩
  rw [hrec]
  decide

end SysinfoNetwork
